import Mathlib

/-!
Verification of the batch-reader module
`apps/pretrained_protein/tape/data_gen.py` (PaddleHelix TAPE data pipeline).

The Python module is shallowly embedded here:

* a numpy archive (`np.load(filename)`) is modelled as an `Archive` record
  holding the three array fields the readers access: `token_ids` (flat
  int buffer), the label field selected by `label_name` (modelled as
  `labels`), and `lengths` (per-example token counts; numpy int array of
  non-negative counts, hence `List Nat`);
* a numpy 1-D slice `xs[a:a+n]` clips at the end of the array
  (`npSlice`); `.reshape(n, 1)` raises `ValueError` when the slice does
  not hold exactly `n` elements (`npReshapeCol`, returning `Except`);
  a column vector of shape `(n, 1)` is modelled as a flat list of
  length `n`;
* each generator (`pretrain_sample_reader.__reader__` and friends) is a
  pure function from the loaded archives and the batch size to the list
  of batches it yields, paired with `Option String`: `some msg` when the
  generator raises mid-iteration (after having yielded the batches in
  the first component), `none` when it runs to completion;
* `apply_bert_mask` is an external collaborator and is passed in as a
  function `mask : List Int → List Int × List Int` returning the masked
  token buffer and the label buffer;
* `batch_size` is a Python `int`, kept as `Int` so that non-positive
  batch sizes behave exactly as in the source (`len(examples) ==
  batch_size` can then never be true).
-/

/-- One shard archive as loaded by `np.load`: the fields read by the
readers. `labels` stands for the array stored under the configured label
field name (`data[label_name]`, default `"labels"`). -/
structure Archive where
  token_ids : List Int
  labels : List Int
  lengths : List Nat
  deriving DecidableEq

/-- One example as built by the reader loops: `(tokens, pos, label)`,
each a column vector `(k, 1)` modelled as a flat list of length `k`. -/
structure Example where
  tokens : List Int
  pos : List Nat
  label : List Int
  deriving DecidableEq

/-- Default example used with `List.getD` in statements. -/
def dEx : Example := ⟨[], [], []⟩

/-- Numpy 1-D basic slice `xs[off : off + n]`: clips at the end of the
array instead of failing. -/
def npSlice (xs : List Int) (off n : Nat) : List Int :=
  (xs.drop off).take n

/-- Numpy `.reshape(n, 1)` on a 1-D array: succeeds exactly when the
array holds `n` elements, otherwise raises `ValueError`. -/
def npReshapeCol (xs : List Int) (n : Nat) : Except String (List Int) :=
  if xs.length = n then .ok xs else .error "cannot reshape array"

/-- How the label of example `i` is obtained: `perToken` slices the
label buffer with the same running offset as the tokens
(`labels[offset:offset+lengths[i]].reshape(lengths[i], 1)`), `perExample`
indexes by example ordinal (`labels[i:i+1].reshape(1, 1)`). -/
inductive LabelRule where
  | perToken
  | perExample
  deriving DecidableEq

/-- Label construction for example `i` at running offset `offset` with
declared length `L`, following `LabelRule`. -/
def labelSlice (rule : LabelRule) (label_buf : List Int) (offset i L : Nat) :
    Except String (List Int) :=
  match rule with
  | .perToken => npReshapeCol (npSlice label_buf offset L) L
  | .perExample => npReshapeCol (npSlice label_buf i 1) 1

/-- The common per-file loop of the three `__reader__` bodies
(`for i in range(lengths.size): ...`): walks `lengths` with the running
`offset` and example index `i`, building `(tokens, pos, label)` triples.
Returns the examples built before any failure, and `some msg` when a
reshape raises (`none` when the whole file is processed). -/
def extractLoop (rule : LabelRule) (token_buf label_buf : List Int) :
    List Nat → Nat → Nat → List Example × Option String
  | [], _, _ => ([], none)
  | L :: rest, offset, i =>
    match npReshapeCol (npSlice token_buf offset L) L with
    | .error msg => ([], some msg)
    | .ok tokens =>
      match labelSlice rule label_buf offset i L with
      | .error msg => ([], some msg)
      | .ok label =>
        let r := extractLoop rule token_buf label_buf rest (offset + L) (i + 1)
        (⟨tokens, List.range L, label⟩ :: r.1, r.2)

/-- Per-file example extraction of `pretrain_sample_reader.__reader__`:
`apply_bert_mask` first produces the masked token buffer and the label
buffer, then the per-token loop runs on them. -/
def pretrainExtract (mask : List Int → List Int × List Int) (a : Archive) :
    List Example × Option String :=
  let m := mask a.token_ids
  extractLoop .perToken m.1 m.2 a.lengths 0 0

/-- Per-file example extraction of `sequence_sample_reader.__reader__`:
labels are sliced with the same running offset as the tokens. -/
def sequenceExtract (a : Archive) : List Example × Option String :=
  extractLoop .perToken a.token_ids a.labels a.lengths 0 0

/-- Per-file example extraction of `normal_sample_reader.__reader__`:
the label of example `i` is `labels[i:i+1].reshape(1, 1)`. -/
def normalExtract (a : Archive) : List Example × Option String :=
  extractLoop .perExample a.token_ids a.labels a.lengths 0 0

/-- One `examples.append(...)` step followed by the
`if len(examples) == batch_size: yield examples; examples.clear()`
check: the state is (batches yielded so far, current accumulator). -/
def pushEx (batch_size : Int) (st : List (List Example) × List Example)
    (e : Example) : List (List Example) × List Example :=
  let acc := st.2 ++ [e]
  if (acc.length : Int) = batch_size then (st.1 ++ [acc], []) else (st.1, acc)

/-- The trailing `if len(examples) > 0: yield examples` after the file
loop. -/
def finishB (st : List (List Example) × List Example) : List (List Example) :=
  if st.2 = [] then st.1 else st.1 ++ [st.2]

/-- The file loop shared by the three `__reader__` bodies: processes the
archives in order, pushing each extracted example through the batch
accumulator; an extraction failure aborts the run after the batches
already yielded. Returns (batches yielded, `some msg` on failure). -/
def runFiles (batch_size : Int) (ex : Archive → List Example × Option String) :
    List Archive → List (List Example) × List Example →
    List (List Example) × Option String
  | [], st => (finishB st, none)
  | f :: rest, st =>
    let r := ex f
    let st' := r.1.foldl (pushEx batch_size) st
    match r.2 with
    | some msg => (st'.1, some msg)
    | none => runFiles batch_size ex rest st'

/-- `pretrain_sample_reader(filenames, batch_size)` followed by one full
iteration of the generator it returns. File loading is modelled by the
archives being passed directly. -/
def pretrain_sample_reader (mask : List Int → List Int × List Int)
    (filenames : List Archive) (batch_size : Int) :
    List (List Example) × Option String :=
  runFiles batch_size (pretrainExtract mask) filenames ([], [])

/-- `sequence_sample_reader(filenames, batch_size, label_name)` followed
by one full iteration of the generator it returns (`Archive.labels` is
the field named `label_name`). -/
def sequence_sample_reader (filenames : List Archive) (batch_size : Int) :
    List (List Example) × Option String :=
  runFiles batch_size sequenceExtract filenames ([], [])

/-- `normal_sample_reader(filenames, batch_size, label_name)` followed
by one full iteration of the generator it returns. -/
def normal_sample_reader (filenames : List Archive) (batch_size : Int) :
    List (List Example) × Option String :=
  runFiles batch_size normalExtract filenames ([], [])

/-- The `model_config` dictionary: key `task` (required) and optional
key `label_name` (`model_config.get('label_name', 'labels')`). -/
structure ModelConfig where
  task : String
  label_name : Option String

/-- The value returned by `get_sample_generator`: which reader variant
was constructed, with the arguments it closed over. -/
inductive SampleGenerator where
  | pretrainGen (filenames : List Archive) (batch_size : Int)
  | sequenceGen (filenames : List Archive) (batch_size : Int) (label_name : String)
  | normalGen (filenames : List Archive) (batch_size : Int) (label_name : String)
  deriving DecidableEq

/-- `get_sample_generator(filenames, batch_size, model_config)`: task
dispatch; raises `NameError('Task %s is unsupport.' % task)` for any
unrecognized task. No file is touched here: the readers only open files
when iterated. -/
def get_sample_generator (filenames : List Archive) (batch_size : Int)
    (model_config : ModelConfig) : Except String SampleGenerator :=
  let task := model_config.task
  if task = "pretrain" then
    .ok (.pretrainGen filenames batch_size)
  else if task = "seq_classification" then
    .ok (.sequenceGen filenames batch_size (model_config.label_name.getD "labels"))
  else if task ∈ ["classification", "regression"] then
    .ok (.normalGen filenames batch_size (model_config.label_name.getD "labels"))
  else
    .error ("Task " ++ task ++ " is unsupport.")

/-- A LoD tensor as produced by `gen_batch_data`: the flat column data
(`set(np.array(...).reshape([-1, 1]), place)`, the device placement
being outside the model) and its level-of-detail offset table
(`set_lod([lods])`). -/
structure LoDTensor where
  data : List Int
  lod : List Nat
  deriving DecidableEq

/-- The dictionary returned by `gen_batch_data`. -/
structure BatchData where
  protein_token : LoDTensor
  protein_pos : LoDTensor
  deriving DecidableEq

/-- One iteration of the `for example in examples` loop of
`gen_batch_data`: extends the flat token buffer with the tokenized
example, the flat position buffer with `np.arange(len(cur_token_ids))`,
and appends the new `len(token_ids)` to `lods`. -/
def genStep (tokenizer : String → List Int)
    (st : List Int × List Int × List Nat) (ex : String) :
    List Int × List Int × List Nat :=
  let cur_token_ids := tokenizer ex
  let token_ids := st.1 ++ cur_token_ids
  let pos := st.2.1 ++ (List.range cur_token_ids.length).map Int.ofNat
  let lods := st.2.2 ++ [token_ids.length]
  (token_ids, pos, lods)

/-- `gen_batch_data(examples, tokenizer, place)`: flattens the token ids
of all examples into one buffer, likewise the positions
(`np.arange(len(cur_token_ids))` per example), records `lods` starting
at `[0]`, and returns the two tensors, which carry the same `lods`
table (the device placement argument is outside the model). -/
def gen_batch_data (examples : List String) (tokenizer : String → List Int) :
    BatchData :=
  let st := examples.foldl (genStep tokenizer) ([], [], [0])
  ⟨⟨st.1, st.2.2⟩, ⟨st.2.1, st.2.2⟩⟩

/-- One invocation of a reader function: `call_index` records which call
in a sequence of invocations this is. The body of `__reader__` starts
with a fresh local `examples = []` and closes only over the immutable
`filenames` and `batch_size`, so the result cannot depend on
`call_index` — which is what the definition exhibits. -/
def reader_invocation (call_index : Nat) (batch_size : Int)
    (ex : Archive → List Example × Option String) (filenames : List Archive) :
    List (List Example) × Option String :=
  runFiles batch_size ex filenames ([], [])

/-- Total number of examples declared by a list of archives. -/
def numExamples (files : List Archive) : Nat :=
  (files.map (fun a => a.lengths.length)).sum

/-- Splitting a list into consecutive chunks of size `b` (last chunk
possibly shorter): the reference shape of the batch stream. -/
def chunks {α : Type} (b : Nat) : List α → List (List α)
  | [] => []
  | e :: es =>
    if h : b = 0 then []
    else (e :: es).take b :: chunks b ((e :: es).drop b)
termination_by l => l.length
decreasing_by
  simp only [List.length_drop, List.length_cons]
  omega

/-- Modelled from the spec: the cumulative offsets table
`[0, len_0, len_0+len_1, ...]` that section 4.3 prescribes for `lods`. -/
def specLods (lens : List Nat) : List Nat :=
  lens.scanl (· + ·) 0

/-! ### Basic facts about the numpy slice and reshape models -/

lemma npSlice_length (xs : List Int) (off n : Nat) :
    (npSlice xs off n).length = min n (xs.length - off) := by
  simp [npSlice]

lemma npSlice_length_of_le (xs : List Int) (off n : Nat)
    (h : off + n ≤ xs.length) : (npSlice xs off n).length = n := by
  rw [npSlice_length]; omega

lemma npReshapeCol_ok (xs : List Int) (n : Nat) (h : xs.length = n) :
    npReshapeCol xs n = .ok xs := by
  simp [npReshapeCol, h]

lemma npReshapeCol_err (xs : List Int) (n : Nat) (h : xs.length ≠ n) :
    npReshapeCol xs n = .error "cannot reshape array" := by
  simp [npReshapeCol, h]

lemma npSlice_singleton (xs : List Int) (i : Nat) (h : i < xs.length) :
    npSlice xs i 1 = [xs.getD i 0] := by
  unfold npSlice
  rw [List.drop_eq_getElem_cons h, List.getD_eq_getElem xs 0 h,
    List.take_succ_cons, List.take_zero]

/-! ### The per-file extraction loop -/

lemma extract_perToken_spec (lens : List Nat) (tb lb : List Int) (off i : Nat)
    (htb : off + lens.sum ≤ tb.length) (hlb : off + lens.sum ≤ lb.length) :
    (extractLoop .perToken tb lb lens off i).2 = none ∧
    (extractLoop .perToken tb lb lens off i).1.length = lens.length ∧
    ∀ k, k < lens.length →
      (extractLoop .perToken tb lb lens off i).1.getD k dEx =
        ⟨npSlice tb (off + (lens.take k).sum) (lens.getD k 0),
         List.range (lens.getD k 0),
         npSlice lb (off + (lens.take k).sum) (lens.getD k 0)⟩ := by
  induction lens generalizing off i with
  | nil => simp [extractLoop]
  | cons L rest ih =>
    rw [List.sum_cons] at htb hlb
    have htL : off + L ≤ tb.length := by omega
    have hlL : off + L ≤ lb.length := by omega
    simp only [extractLoop, labelSlice]
    rw [npReshapeCol_ok _ _ (npSlice_length_of_le _ _ _ htL),
      npReshapeCol_ok _ _ (npSlice_length_of_le _ _ _ hlL)]
    obtain ⟨e1, e2, e3⟩ :=
      ih (off + L) (i + 1) (by omega) (by omega)
    refine ⟨e1, by simpa using e2, ?_⟩
    intro k hk
    cases k with
    | zero => simp
    | succ k =>
      simp only [List.getD_cons_succ, List.take_succ_cons, List.sum_cons]
      rw [e3 k (by simpa using hk)]
      have : off + (L + (rest.take k).sum) = off + L + (rest.take k).sum := by omega
      rw [this]

lemma extract_perExample_spec (lens : List Nat) (tb lb : List Int) (off i : Nat)
    (htb : off + lens.sum ≤ tb.length) (hlb : i + lens.length ≤ lb.length) :
    (extractLoop .perExample tb lb lens off i).2 = none ∧
    (extractLoop .perExample tb lb lens off i).1.length = lens.length ∧
    ∀ k, k < lens.length →
      (extractLoop .perExample tb lb lens off i).1.getD k dEx =
        ⟨npSlice tb (off + (lens.take k).sum) (lens.getD k 0),
         List.range (lens.getD k 0),
         [lb.getD (i + k) 0]⟩ := by
  induction lens generalizing off i with
  | nil => simp [extractLoop]
  | cons L rest ih =>
    rw [List.sum_cons] at htb
    rw [List.length_cons] at hlb
    have htL : off + L ≤ tb.length := by omega
    have hi : i < lb.length := by omega
    simp only [extractLoop, labelSlice]
    rw [npReshapeCol_ok _ _ (npSlice_length_of_le _ _ _ htL),
      npSlice_singleton lb i hi,
      npReshapeCol_ok _ _ (by simp)]
    obtain ⟨e1, e2, e3⟩ :=
      ih (off + L) (i + 1) (by omega) (by omega)
    refine ⟨e1, by simpa using e2, ?_⟩
    intro k hk
    cases k with
    | zero => simp
    | succ k =>
      simp only [List.getD_cons_succ, List.take_succ_cons, List.sum_cons]
      rw [e3 k (by simpa using hk)]
      have h1 : off + (L + (rest.take k).sum) = off + L + (rest.take k).sum := by
        omega
      have h2 : i + (k + 1) = i + 1 + k := by omega
      rw [h1, h2]

lemma extract_err_of_overflow (rule : LabelRule) (lens : List Nat)
    (tb lb : List Int) (off i : Nat) (h1 : off ≤ tb.length)
    (h2 : tb.length < off + lens.sum) :
    ((extractLoop rule tb lb lens off i).2).isSome := by
  induction lens generalizing off i with
  | nil => rw [List.sum_nil] at h2; omega
  | cons L rest ih =>
    rw [List.sum_cons] at h2
    by_cases hL : off + L ≤ tb.length
    · simp only [extractLoop]
      rw [npReshapeCol_ok _ _ (npSlice_length_of_le _ _ _ hL)]
      cases hls : labelSlice rule lb off i L with
      | error msg => simp
      | ok label =>
        simpa using ih (off + L) (i + 1) hL (by omega)
    · have hne : (npSlice tb off L).length ≠ L := by
        rw [npSlice_length]; omega
      simp only [extractLoop]
      rw [npReshapeCol_err _ _ hne]
      simp

lemma extract_tokens_take (rule : LabelRule) (lens : List Nat)
    (tb lb : List Int) (off i : Nat) :
    (extractLoop rule tb lb lens off i).1.map (fun e => e.tokens.length) =
      lens.take ((extractLoop rule tb lb lens off i).1.length) := by
  induction lens generalizing off i with
  | nil => simp [extractLoop]
  | cons L rest ih =>
    simp only [extractLoop]
    cases htk : npReshapeCol (npSlice tb off L) L with
    | error msg => simp
    | ok tokens =>
      have hlen : tokens.length = L := by
        unfold npReshapeCol at htk
        split at htk
        · cases htk; omega
        · cases htk
      cases hls : labelSlice rule lb off i L with
      | error msg => simp
      | ok label =>
        simpa [hlen] using ih (off + L) (i + 1)

lemma extract_pos (rule : LabelRule) (lens : List Nat) (tb lb : List Int)
    (off i : Nat) :
    ∀ e ∈ (extractLoop rule tb lb lens off i).1,
      e.pos = List.range e.tokens.length := by
  induction lens generalizing off i with
  | nil => simp [extractLoop]
  | cons L rest ih =>
    simp only [extractLoop]
    cases htk : npReshapeCol (npSlice tb off L) L with
    | error msg => simp
    | ok tokens =>
      have hlen : tokens.length = L := by
        unfold npReshapeCol at htk
        split at htk
        · cases htk; omega
        · cases htk
      cases hls : labelSlice rule lb off i L with
      | error msg => simp
      | ok label =>
        intro e he
        rcases List.mem_cons.mp he with rfl | hmem
        · simp [hlen]
        · exact ih (off + L) (i + 1) e hmem

/-! ### The batch accumulator -/

lemma finishB_flatten (st : List (List Example) × List Example) :
    (finishB st).flatten = st.1.flatten ++ st.2 := by
  unfold finishB
  split <;> simp_all

lemma foldl_pushEx_flatten (B : Int) (es : List Example) :
    ∀ st : List (List Example) × List Example,
      ((es.foldl (pushEx B) st).1).flatten ++ (es.foldl (pushEx B) st).2 =
        st.1.flatten ++ st.2 ++ es := by
  induction es with
  | nil => intro st; simp
  | cons e es ih =>
    intro st
    rw [List.foldl_cons, ih]
    unfold pushEx
    by_cases h : (((st.2 ++ [e]).length : Nat) : Int) = B
    · rw [if_pos h]; simp
    · rw [if_neg h]; simp

lemma pushEx_eq (B : Int) (st : List (List Example) × List Example)
    (e : Example) :
    pushEx B st e =
      if ((st.2 ++ [e]).length : Int) = B then (st.1 ++ [st.2 ++ [e]], [])
      else (st.1, st.2 ++ [e]) := rfl

lemma foldl_pushEx_nonpos (B : Int) (hB : B ≤ 0) (es : List Example) :
    ∀ st : List (List Example) × List Example,
      es.foldl (pushEx B) st = (st.1, st.2 ++ es) := by
  induction es with
  | nil => intro st; simp
  | cons e es ih =>
    intro st
    rw [List.foldl_cons, ih]
    have h : (((st.2 ++ [e]).length : Nat) : Int) ≠ B := by
      have : (st.2 ++ [e]).length = st.2.length + 1 := by simp
      rw [this]
      omega
    rw [pushEx_eq, if_neg h]
    simp

lemma chunks_cons_eq {α : Type} (b : Nat) (hb : b ≠ 0) (l : List α)
    (hl : l ≠ []) : chunks b l = l.take b :: chunks b (l.drop b) := by
  cases l with
  | nil => exact absurd rfl hl
  | cons x xs =>
    rw [chunks]
    simp [hb]

lemma finishB_foldl_chunks (b : Nat) (hb : 1 ≤ b) (es : List Example) :
    ∀ (Y : List (List Example)) (a : List Example), a.length < b →
      finishB (es.foldl (pushEx (b : Int)) (Y, a)) = Y ++ chunks b (a ++ es) := by
  induction es with
  | nil =>
    intro Y a ha
    rw [List.foldl_nil, List.append_nil]
    unfold finishB
    by_cases h : a = []
    · subst h; simp [chunks]
    · rw [if_neg h, chunks_cons_eq b (by omega) a h]
      have ht : a.take b = a := List.take_of_length_le (by omega)
      have hd : a.drop b = [] := List.drop_eq_nil_of_le (by omega)
      rw [ht, hd]
      simp [chunks]
  | cons e es ih =>
    intro Y a ha
    have hlen : (a ++ [e]).length = a.length + 1 := by simp
    rw [List.foldl_cons, pushEx_eq]
    by_cases h : a.length + 1 = b
    · have hc : (((a ++ [e]).length : Nat) : Int) = (b : Int) := by
        rw [hlen]; omega
      rw [if_pos hc]
      have h0 : ([] : List Example).length < b := by simp; omega
      rw [ih (Y ++ [a ++ [e]]) [] h0]
      have hsplit : a ++ e :: es = (a ++ [e]) ++ es := by simp
      have hne : (a ++ [e]) ++ es ≠ [] := by
        intro hcontra
        simpa using congrArg List.length hcontra
      rw [hsplit, chunks_cons_eq b (by omega) _ hne,
        @List.take_left' _ (a ++ [e]) es b (by rw [hlen]; omega),
        @List.drop_left' _ (a ++ [e]) es b (by rw [hlen]; omega)]
      simp
    · have hc : (((a ++ [e]).length : Nat) : Int) ≠ (b : Int) := by
        rw [hlen]; omega
      rw [if_neg hc]
      have h1 : (a ++ [e]).length < b := by rw [hlen]; omega
      rw [ih Y (a ++ [e]) h1]
      simp

lemma chunks_map_length {α : Type} (b : Nat) (hb : 1 ≤ b) :
    ∀ (n : Nat) (es : List α), es.length = n →
      (chunks b es).map List.length =
        List.replicate (n / b) b ++
          (if n % b = 0 then [] else [n % b]) := by
  intro n
  induction n using Nat.strong_induction_on with
  | _ n ih =>
    intro es hlen
    cases es with
    | nil =>
      subst hlen
      simp [chunks]
    | cons x xs =>
      have hn1 : 1 ≤ n := by rw [← hlen]; simp
      rw [chunks_cons_eq b (by omega) _ (by simp), List.map_cons]
      have hdl : ((x :: xs).drop b).length = n - b := by
        rw [List.length_drop, hlen]
      rw [ih ((x :: xs).drop b).length (by rw [hdl]; omega) _ rfl, hdl]
      have htk : ((x :: xs).take b).length = min b n := by
        rw [List.length_take, hlen]
      rw [htk]
      by_cases hbn : b ≤ n
      · have hmin : min b n = b := by omega
        rw [hmin, Nat.div_eq_sub_div (by omega) hbn,
          ← Nat.mod_eq_sub_mod hbn, List.replicate_succ]
        simp
      · have hmin : min b n = n := by omega
        have hsub : n - b = 0 := by omega
        rw [hmin, hsub, Nat.div_eq_of_lt (show (0 : Nat) < b by omega),
          Nat.mod_eq_of_lt (show (0 : Nat) < b by omega),
          Nat.div_eq_of_lt (show n < b by omega),
          Nat.mod_eq_of_lt (show n < b by omega),
          if_neg (show ¬ n = 0 by omega)]
        simp

lemma ceil_div_eq (b n : Nat) (hb : 1 ≤ b) :
    (n + b - 1) / b = n / b + (if n % b = 0 then 0 else 1) := by
  obtain ⟨q, r, hr, hn⟩ : ∃ q r, r < b ∧ n = b * q + r :=
    ⟨n / b, n % b, Nat.mod_lt _ (by omega), (Nat.div_add_mod n b).symm⟩
  subst hn
  have hmod : (b * q + r) % b = r := by
    rw [Nat.mul_add_mod, Nat.mod_eq_of_lt hr]
  have hdiv : (b * q + r) / b = q := by
    rw [Nat.mul_add_div (by omega), Nat.div_eq_of_lt hr, Nat.add_zero]
  rw [hmod, hdiv]
  by_cases h0 : r = 0
  · subst h0
    rw [if_pos rfl, Nat.add_zero, Nat.add_zero]
    have harg : b * q + b - 1 = b * q + (b - 1) := by omega
    rw [harg, Nat.mul_add_div (by omega),
      Nat.div_eq_of_lt (show b - 1 < b by omega), Nat.add_zero]
  · rw [if_neg h0]
    have harg : b * q + r + b - 1 = b * (q + 1) + (r - 1) := by
      have : b * (q + 1) = b * q + b := by ring
      omega
    rw [harg, Nat.mul_add_div (by omega),
      Nat.div_eq_of_lt (show r - 1 < b by omega), Nat.add_zero]

lemma chunks_length_eq {α : Type} (b : Nat) (hb : 1 ≤ b) (es : List α) :
    (chunks b es).length = (es.length + b - 1) / b := by
  have h := congrArg List.length (chunks_map_length b hb es.length es rfl)
  rw [List.length_map, List.length_append, List.length_replicate] at h
  rw [ceil_div_eq b es.length hb, h]
  by_cases h0 : es.length % b = 0
  · rw [if_pos h0, if_pos h0]
    simp
  · rw [if_neg h0, if_neg h0]
    simp

/-! ### The file loop -/

lemma runFiles_ok (B : Int) (ex : Archive → List Example × Option String)
    (files : List Archive) (h : ∀ f ∈ files, (ex f).2 = none) :
    ∀ st, runFiles B ex files st =
      (finishB (((files.map (fun f => (ex f).1)).flatten).foldl (pushEx B) st),
       none) := by
  induction files with
  | nil => intro st; simp [runFiles]
  | cons f rest ih =>
    intro st
    have hf : (ex f).2 = none := h f (by simp)
    simp only [runFiles, hf]
    rw [ih (fun g hg => h g (by simp [hg]))]
    simp [List.foldl_append]

lemma runFiles_flatten_sub (B : Int)
    (ex : Archive → List Example × Option String) (files : List Archive) :
    ∀ st e, e ∈ ((runFiles B ex files st).1).flatten →
      e ∈ st.1.flatten ++ st.2 ++ ((files.map (fun f => (ex f).1)).flatten) := by
  induction files with
  | nil =>
    intro st e he
    simp only [runFiles] at he
    rw [finishB_flatten] at he
    simp only [List.map_nil, List.flatten_nil, List.append_nil]
    exact he
  | cons f rest ih =>
    intro st e he
    simp only [runFiles] at he
    cases herr : (ex f).2 with
    | some msg =>
      rw [herr] at he
      simp only at he
      have h2 : e ∈ (((ex f).1.foldl (pushEx B) st).1).flatten ++
          ((ex f).1.foldl (pushEx B) st).2 :=
        List.mem_append_left _ he
      rw [foldl_pushEx_flatten] at h2
      simp only [List.map_cons, List.flatten_cons]
      rw [List.mem_append] at h2 ⊢
      rcases h2 with h2 | h2
      · rw [List.mem_append] at h2 ⊢
        rcases h2 with h2 | h2
        · exact Or.inl (Or.inl h2)
        · exact Or.inl (Or.inr h2)
      · exact Or.inr (List.mem_append_left _ h2)
    | none =>
      rw [herr] at he
      simp only at he
      have h2 := ih _ e he
      rw [foldl_pushEx_flatten] at h2
      simp only [List.map_cons, List.flatten_cons]
      rw [List.mem_append] at h2 ⊢
      rcases h2 with h2 | h2
      · rw [List.mem_append] at h2 ⊢
        rcases h2 with h2 | h2
        · rw [List.mem_append] at h2
          rcases h2 with h2 | h2
          · exact Or.inl (Or.inl h2)
          · exact Or.inl (Or.inr h2)
        · exact Or.inr (List.mem_append_left _ h2)
      · exact Or.inr (List.mem_append_right _ h2)

/-! ### Concrete instantiations used in witnesses -/

/-- Length-preserving instantiation of the external `apply_bert_mask`
collaborator, used for concrete runs: tokens unchanged, labels equal to
the tokens. -/
def idMask : List Int → List Int × List Int := fun t => (t, t)

/-- A tokenizer producing one id per character. -/
def perCharTok : String → List Int :=
  fun s => s.toList.map (fun c => (c.toNat : Int))

/-! ### Claims -/

/-- C1, counterexample: the archive `⟨[1,2,3],[4,5,6],[1]⟩` violates
`sum(lengths) == len(token_ids)` (1 ≠ 3), yet the sequence reader
finishes without raising: it yields one batch and reports no error, the
two surplus tokens being silently ignored. -/
theorem C1_counterexample :
    (⟨[1, 2, 3], [4, 5, 6], [1]⟩ : Archive).lengths.sum ≠
      (⟨[1, 2, 3], [4, 5, 6], [1]⟩ : Archive).token_ids.length ∧
    (sequence_sample_reader [⟨[1, 2, 3], [4, 5, 6], [1]⟩] 1).2 = none ∧
    (sequence_sample_reader [⟨[1, 2, 3], [4, 5, 6], [1]⟩] 1).1 =
      [[⟨[1], [0], [4]⟩]] := by
  refine ⟨by decide, rfl, rfl⟩

/-- C1 (amended): in each of the three reader variants, when
`sum(lengths)` exceeds `len(token_ids)` the reader raises an error (the
reshape of the clipped token slice fails) — for the pretraining variant
under the masking contract that the masked buffer keeps the length of
`token_ids` — and in every case no yielded example has a shortened
token slice: the token lengths of the produced examples are exactly the
corresponding prefix of `lengths`. (When `sum(lengths)` is smaller than
`len(token_ids)` no error is raised; surplus tokens are ignored, as the
counterexample shows.) -/
theorem C1_token_slice_never_shortened :
    (∀ a : Archive, a.token_ids.length < a.lengths.sum →
      ((sequenceExtract a).2).isSome) ∧
    (∀ a : Archive, a.token_ids.length < a.lengths.sum →
      ((normalExtract a).2).isSome) ∧
    (∀ (mask : List Int → List Int × List Int) (a : Archive),
      (∀ t, ((mask t).1).length = t.length) →
      a.token_ids.length < a.lengths.sum →
      ((pretrainExtract mask a).2).isSome) ∧
    (∀ a : Archive,
      (sequenceExtract a).1.map (fun e => e.tokens.length) =
        a.lengths.take ((sequenceExtract a).1.length)) ∧
    (∀ a : Archive,
      (normalExtract a).1.map (fun e => e.tokens.length) =
        a.lengths.take ((normalExtract a).1.length)) ∧
    (∀ (mask : List Int → List Int × List Int) (a : Archive),
      (pretrainExtract mask a).1.map (fun e => e.tokens.length) =
        a.lengths.take ((pretrainExtract mask a).1.length)) := by
  refine ⟨?_, ?_, ?_, ?_, ?_, ?_⟩
  · intro a h
    unfold sequenceExtract
    exact extract_err_of_overflow .perToken a.lengths a.token_ids a.labels 0 0
      (by omega) (by omega)
  · intro a h
    unfold normalExtract
    exact extract_err_of_overflow .perExample a.lengths a.token_ids a.labels
      0 0 (by omega) (by omega)
  · intro mask a hm h
    unfold pretrainExtract
    exact extract_err_of_overflow .perToken a.lengths (mask a.token_ids).1
      (mask a.token_ids).2 0 0 (by omega) (by rw [hm a.token_ids]; omega)
  · intro a
    unfold sequenceExtract
    exact extract_tokens_take .perToken a.lengths a.token_ids a.labels 0 0
  · intro a
    unfold normalExtract
    exact extract_tokens_take .perExample a.lengths a.token_ids a.labels 0 0
  · intro mask a
    unfold pretrainExtract
    exact extract_tokens_take .perToken a.lengths (mask a.token_ids).1
      (mask a.token_ids).2 0 0

/-- C1, witness for the amended theorem: each of the three variants
raises at a concrete overflowing archive. -/
theorem C1_witness :
    ((sequenceExtract ⟨[1], [], [2]⟩).2).isSome ∧
    ((normalExtract ⟨[1], [5], [2]⟩).2).isSome ∧
    ((pretrainExtract idMask ⟨[1], [], [2]⟩).2).isSome :=
  ⟨C1_token_slice_never_shortened.1 ⟨[1], [], [2]⟩ (by decide),
   C1_token_slice_never_shortened.2.1 ⟨[1], [5], [2]⟩ (by decide),
   C1_token_slice_never_shortened.2.2.1 idMask ⟨[1], [], [2]⟩
     (fun t => rfl) (by decide)⟩

/-- C3: `get_sample_generator` maps `pretrain` to the pretraining
reader, `seq_classification` to the sequence reader, `classification`
and `regression` to the scalar-label reader, and raises
`NameError('Task %s is unsupport.' % task)` for every other task — the
message containing the offending task, and the result not depending on
the files (no file is opened during construction). -/
theorem get_sample_generator_dispatch :
    (∀ (fs : List Archive) (B : Int) (ln : Option String),
      get_sample_generator fs B ⟨"pretrain", ln⟩ = .ok (.pretrainGen fs B)) ∧
    (∀ (fs : List Archive) (B : Int) (ln : Option String),
      get_sample_generator fs B ⟨"seq_classification", ln⟩ =
        .ok (.sequenceGen fs B (ln.getD "labels"))) ∧
    (∀ (fs : List Archive) (B : Int) (ln : Option String),
      get_sample_generator fs B ⟨"classification", ln⟩ =
        .ok (.normalGen fs B (ln.getD "labels"))) ∧
    (∀ (fs : List Archive) (B : Int) (ln : Option String),
      get_sample_generator fs B ⟨"regression", ln⟩ =
        .ok (.normalGen fs B (ln.getD "labels"))) ∧
    (∀ (task : String) (fs : List Archive) (B : Int) (ln : Option String),
      task ∉ ["pretrain", "seq_classification", "classification",
        "regression"] →
      get_sample_generator fs B ⟨task, ln⟩ =
        .error ("Task " ++ task ++ " is unsupport.")) := by
  refine ⟨fun fs B ln => rfl, fun fs B ln => rfl, fun fs B ln => rfl,
    fun fs B ln => rfl, ?_⟩
  intro task fs B ln h
  simp only [List.mem_cons, List.mem_singleton, not_or] at h
  obtain ⟨h1, h2, h3, h4⟩ := h
  simp [get_sample_generator, h1, h2, h3, h4]

/-- C3, witness: the unsupported task `bogus` is rejected with a
message naming it, independently of any files. -/
theorem C3_witness :
    get_sample_generator [] 1 ⟨"bogus", none⟩ =
      .error ("Task bogus is unsupport.") :=
  get_sample_generator_dispatch.2.2.2.2 "bogus" [] 1 none (by decide)

/-- C4: in the scalar-label reader, the label of example `i` is
`labels[i]` reshaped to `(1, 1)`, independent of the token lengths of
the preceding examples. -/
theorem normal_label_by_index (a : Archive)
    (htok : a.lengths.sum ≤ a.token_ids.length)
    (hlab : a.lengths.length ≤ a.labels.length) :
    (normalExtract a).2 = none ∧
    (normalExtract a).1.length = a.lengths.length ∧
    ∀ k, k < a.lengths.length →
      ((normalExtract a).1.getD k dEx).label = [a.labels.getD k 0] := by
  unfold normalExtract
  have h := extract_perExample_spec a.lengths a.token_ids a.labels 0 0
    (by omega) (by omega)
  refine ⟨h.1, h.2.1, ?_⟩
  intro k hk
  rw [h.2.2 k hk]
  simp

/-- C4, witness: with `lengths = [3,1,2]` and `labels = [7,8,9]`,
example 1 gets label `8`. -/
theorem C4_witness :
    (normalExtract ⟨[1, 2, 3, 4, 5, 6], [7, 8, 9], [3, 1, 2]⟩).2 = none ∧
    ((normalExtract ⟨[1, 2, 3, 4, 5, 6], [7, 8, 9], [3, 1, 2]⟩).1.getD 1
      dEx).label = [8] := by
  have h := normal_label_by_index ⟨[1, 2, 3, 4, 5, 6], [7, 8, 9], [3, 1, 2]⟩
    (by decide) (by decide)
  exact ⟨h.1, by rw [h.2.2 1 (by decide)]; decide⟩

/-- C5: in the sequence-labeling reader, example `k` is built from the
token slice and the label slice at the same running offset
`sum(lengths[0:k])`, both of the declared length `lengths[k]`. -/
theorem sequence_label_same_offsets (a : Archive)
    (htok : a.lengths.sum ≤ a.token_ids.length)
    (hlab : a.lengths.sum ≤ a.labels.length) :
    (sequenceExtract a).2 = none ∧
    (sequenceExtract a).1.length = a.lengths.length ∧
    ∀ k, k < a.lengths.length →
      (sequenceExtract a).1.getD k dEx =
        ⟨npSlice a.token_ids ((a.lengths.take k).sum) (a.lengths.getD k 0),
         List.range (a.lengths.getD k 0),
         npSlice a.labels ((a.lengths.take k).sum) (a.lengths.getD k 0)⟩ := by
  unfold sequenceExtract
  have h := extract_perToken_spec a.lengths a.token_ids a.labels 0 0
    (by omega) (by omega)
  refine ⟨h.1, h.2.1, ?_⟩
  intro k hk
  rw [h.2.2 k hk]
  simp

/-- C5, witness: with `token_ids = [1,2,3,4,5]` and `lengths = [2,3]`,
example 0 gets tokens `[1,2]` and labels `labels[0:2] = [10,20]`. -/
theorem C5_witness :
    (sequenceExtract ⟨[1, 2, 3, 4, 5], [10, 20, 30, 40, 50], [2, 3]⟩).2 =
      none ∧
    (sequenceExtract ⟨[1, 2, 3, 4, 5], [10, 20, 30, 40, 50], [2, 3]⟩).1.getD 0
      dEx = ⟨[1, 2], [0, 1], [10, 20]⟩ := by
  have h := sequence_label_same_offsets
    ⟨[1, 2, 3, 4, 5], [10, 20, 30, 40, 50], [2, 3]⟩ (by decide) (by decide)
  exact ⟨h.1, by rw [h.2.2 0 (by decide)]; decide⟩

/-- C7: the reader function closes only over the immutable `filenames`
and `batch_size` and allocates a fresh `examples = []` accumulator on
each call, so two invocations (any call indices `i`, `j`) produce the
same batch sequence, each equal to a run started from the empty
accumulator — no mutable cursor is shared between passes. -/
theorem reader_invocations_independent :
    ∀ (i j : Nat) (B : Int) (ex : Archive → List Example × Option String)
      (files : List Archive),
      reader_invocation i B ex files = reader_invocation j B ex files ∧
      reader_invocation i B ex files = runFiles B ex files ([], []) :=
  fun _ _ _ _ _ => ⟨rfl, rfl⟩

/-! ### Remaining helper lemmas -/

/-- Running offsets of a length list, starting after `base` elements. -/
def offsetsFrom (base : Nat) : List Nat → List Nat
  | [] => []
  | l :: ls => (base + l) :: offsetsFrom (base + l) ls

lemma scanl_eq_offsetsFrom (lens : List Nat) :
    ∀ base : Nat, lens.scanl (· + ·) base = base :: offsetsFrom base lens := by
  induction lens with
  | nil => intro base; simp [offsetsFrom, List.scanl_nil]
  | cons l ls ih =>
    intro base
    rw [List.scanl_cons, ih (base + l)]
    simp [offsetsFrom]

lemma foldl_genStep_spec (tokenizer : String → List Int)
    (examples : List String) :
    ∀ (t p : List Int) (lds : List Nat),
      examples.foldl (genStep tokenizer) (t, p, lds) =
        (t ++ (examples.map tokenizer).flatten,
         p ++ (examples.map
           (fun ex => (List.range (tokenizer ex).length).map Int.ofNat)).flatten,
         lds ++ offsetsFrom t.length
           (examples.map (fun ex => (tokenizer ex).length))) := by
  induction examples with
  | nil => intro t p lds; simp [offsetsFrom]
  | cons ex exs ih =>
    intro t p lds
    rw [List.foldl_cons]
    show List.foldl (genStep tokenizer)
      (t ++ tokenizer ex,
       p ++ (List.range (tokenizer ex).length).map Int.ofNat,
       lds ++ [(t ++ tokenizer ex).length]) exs = _
    rw [ih]
    simp only [List.map_cons, List.flatten_cons, List.length_append,
      offsetsFrom, List.append_assoc, List.cons_append, List.nil_append]

lemma runFiles_example_pos (B : Int)
    (ex : Archive → List Example × Option String) (files : List Archive)
    (hex : ∀ f, ∀ e ∈ (ex f).1, e.pos = List.range e.tokens.length) :
    ∀ batch ∈ (runFiles B ex files ([], [])).1, ∀ e ∈ batch,
      e.pos = List.range e.tokens.length := by
  intro batch hb e he
  have hmem : e ∈ ((runFiles B ex files ([], [])).1).flatten :=
    List.mem_flatten.mpr ⟨batch, hb, he⟩
  have h2 := runFiles_flatten_sub B ex files ([], []) e hmem
  simp only [List.flatten_nil, List.nil_append] at h2
  obtain ⟨l, hl, hel⟩ := List.mem_flatten.mp h2
  obtain ⟨f, _, rfl⟩ := List.mem_map.mp hl
  exact hex f e hel

lemma pretrainExtract_ok (mask : List Int → List Int × List Int)
    (hm : ∀ t, ((mask t).1).length = t.length ∧ ((mask t).2).length = t.length)
    (a : Archive) (hwf : a.lengths.sum = a.token_ids.length) :
    (pretrainExtract mask a).2 = none ∧
    (pretrainExtract mask a).1.length = a.lengths.length := by
  unfold pretrainExtract
  have h := extract_perToken_spec a.lengths (mask a.token_ids).1
    (mask a.token_ids).2 0 0
    (by rw [(hm a.token_ids).1]; omega)
    (by rw [(hm a.token_ids).2]; omega)
  exact ⟨h.1, h.2.1⟩

lemma flatten_length_pretrain (mask : List Int → List Int × List Int)
    (hm : ∀ t, ((mask t).1).length = t.length ∧ ((mask t).2).length = t.length)
    (files : List Archive)
    (hwf : ∀ a ∈ files, a.lengths.sum = a.token_ids.length) :
    ((files.map (fun f => (pretrainExtract mask f).1)).flatten).length =
      numExamples files := by
  rw [List.length_flatten, List.map_map]
  unfold numExamples
  congr 1
  apply List.map_congr_left
  intro f hf
  exact (pretrainExtract_ok mask hm f (hwf f hf)).2

/-- C2: for well-formed archives (length-preserving masking, and
`sum(lengths) == len(token_ids)` per file) and batch size `b ≥ 1`, one
full pass of the pretraining reader succeeds and yields exactly
`ceil(N/b) = (N + b - 1) / b` batches: the first `N / b` of size
exactly `b`, followed by one batch of size `N % b` when `N % b ≠ 0` and
nothing otherwise. -/
theorem pretrain_exact_batching (mask : List Int → List Int × List Int)
    (hm : ∀ t, ((mask t).1).length = t.length ∧ ((mask t).2).length = t.length)
    (files : List Archive)
    (hwf : ∀ a ∈ files, a.lengths.sum = a.token_ids.length)
    (b : Nat) (hb : 1 ≤ b) :
    (pretrain_sample_reader mask files (b : Int)).2 = none ∧
    ((pretrain_sample_reader mask files (b : Int)).1).map List.length =
      List.replicate (numExamples files / b) b ++
        (if numExamples files % b = 0 then []
         else [numExamples files % b]) ∧
    ((pretrain_sample_reader mask files (b : Int)).1).length =
      (numExamples files + b - 1) / b := by
  have hok : ∀ f ∈ files, (pretrainExtract mask f).2 = none :=
    fun f hf => (pretrainExtract_ok mask hm f (hwf f hf)).1
  have hlen := flatten_length_pretrain mask hm files hwf
  have hch := finishB_foldl_chunks b hb
    ((files.map (fun f => (pretrainExtract mask f).1)).flatten) [] []
    (by simp only [List.length_nil]; omega)
  unfold pretrain_sample_reader
  rw [runFiles_ok (b : Int) (pretrainExtract mask) files hok ([], []), hch]
  simp only [List.nil_append]
  refine ⟨by trivial, ?_, ?_⟩
  · rw [chunks_map_length b hb
      ((files.map (fun f => (pretrainExtract mask f).1)).flatten).length _ rfl,
      hlen]
  · rw [chunks_length_eq b hb, hlen]

/-- C2, witness: one file with two examples of one token each, batch
size 2: a single full batch. -/
theorem C2_witness :
    (pretrain_sample_reader idMask [⟨[5, 6], [], [1, 1]⟩]
      ((2 : Nat) : Int)).2 = none ∧
    ((pretrain_sample_reader idMask [⟨[5, 6], [], [1, 1]⟩]
      ((2 : Nat) : Int)).1).map List.length =
      List.replicate (numExamples [⟨[5, 6], [], [1, 1]⟩] / 2) 2 ++
        (if numExamples [⟨[5, 6], [], [1, 1]⟩] % 2 = 0 then []
         else [numExamples [⟨[5, 6], [], [1, 1]⟩] % 2]) ∧
    ((pretrain_sample_reader idMask [⟨[5, 6], [], [1, 1]⟩]
      ((2 : Nat) : Int)).1).length =
      (numExamples [⟨[5, 6], [], [1, 1]⟩] + 2 - 1) / 2 :=
  pretrain_exact_batching idMask (fun t => ⟨rfl, rfl⟩)
    [⟨[5, 6], [], [1, 1]⟩] (by decide) 2 (by decide)

/-- C6: in every variant, each produced example carries a token column
of exactly its declared length (the produced token lengths are the
matching prefix of `lengths`), and every example in every yielded batch
of the three readers has positions `[0, 1, ..., L-1]` for its token
count `L`. -/
theorem example_positions_and_token_shape :
    (∀ (rule : LabelRule) (tb lb : List Int) (lens : List Nat) (off i : Nat),
      (extractLoop rule tb lb lens off i).1.map (fun e => e.tokens.length) =
        lens.take ((extractLoop rule tb lb lens off i).1.length)) ∧
    (∀ (mask : List Int → List Int × List Int) (files : List Archive)
      (B : Int), ∀ batch ∈ (pretrain_sample_reader mask files B).1,
      ∀ e ∈ batch, e.pos = List.range e.tokens.length) ∧
    (∀ (files : List Archive) (B : Int),
      ∀ batch ∈ (sequence_sample_reader files B).1, ∀ e ∈ batch,
        e.pos = List.range e.tokens.length) ∧
    (∀ (files : List Archive) (B : Int),
      ∀ batch ∈ (normal_sample_reader files B).1, ∀ e ∈ batch,
        e.pos = List.range e.tokens.length) := by
  refine ⟨fun rule tb lb lens off i => extract_tokens_take rule lens tb lb off i,
    ?_, ?_, ?_⟩
  · intro mask files B
    show ∀ batch ∈ (runFiles B (pretrainExtract mask) files ([], [])).1,
      ∀ e ∈ batch, e.pos = List.range e.tokens.length
    apply runFiles_example_pos
    intro f e he
    exact extract_pos .perToken f.lengths (mask f.token_ids).1
      (mask f.token_ids).2 0 0 e he
  · intro files B
    show ∀ batch ∈ (runFiles B sequenceExtract files ([], [])).1,
      ∀ e ∈ batch, e.pos = List.range e.tokens.length
    apply runFiles_example_pos
    intro f e he
    exact extract_pos .perToken f.lengths f.token_ids f.labels 0 0 e he
  · intro files B
    show ∀ batch ∈ (runFiles B normalExtract files ([], [])).1,
      ∀ e ∈ batch, e.pos = List.range e.tokens.length
    apply runFiles_example_pos
    intro f e he
    exact extract_pos .perExample f.lengths f.token_ids f.labels 0 0 e he

/-- C6, witness: a concrete yielded example of the sequence reader has
positions `[0]` for its single token. -/
theorem C6_witness :
    (⟨[3], [0], [9]⟩ : Example).pos =
      List.range (⟨[3], [0], [9]⟩ : Example).tokens.length :=
  example_positions_and_token_shape.2.2.1 [⟨[3], [9], [1]⟩] 1
    [⟨[3], [0], [9]⟩] (by decide) ⟨[3], [0], [9]⟩ (by decide)

/-- C8: `gen_batch_data` returns two tensors over flat buffers sharing
one offset table, the cumulative sums `[0, len_0, len_0+len_1, ...]` of
the per-example token counts; the position buffer is `0..len-1` per
example; concretely, for `['AC', 'G']` under a one-id-per-character
tokenizer, the lods are `[0, 2, 3]` and the position buffer is
`[0, 1, 0]`. -/
theorem gen_batch_data_lods_cumulative :
    (∀ (examples : List String) (tokenizer : String → List Int),
      (gen_batch_data examples tokenizer).protein_token.lod =
        (gen_batch_data examples tokenizer).protein_pos.lod ∧
      (gen_batch_data examples tokenizer).protein_token.lod =
        specLods (examples.map (fun ex => (tokenizer ex).length)) ∧
      (gen_batch_data examples tokenizer).protein_token.data =
        (examples.map tokenizer).flatten ∧
      (gen_batch_data examples tokenizer).protein_pos.data =
        (examples.map
          (fun ex =>
            (List.range (tokenizer ex).length).map Int.ofNat)).flatten) ∧
    (gen_batch_data ["AC", "G"] perCharTok).protein_token.lod = [0, 2, 3] ∧
    (gen_batch_data ["AC", "G"] perCharTok).protein_pos.lod = [0, 2, 3] ∧
    (gen_batch_data ["AC", "G"] perCharTok).protein_pos.data = [0, 1, 0] := by
  refine ⟨?_, by decide, by decide, by decide⟩
  intro examples tokenizer
  unfold gen_batch_data
  rw [foldl_genStep_spec]
  unfold specLods
  rw [scanl_eq_offsetsFrom]
  simp

/-- C9: for well-formed archives and batch size `b ≥ 1`, the
concatenation of all batches of one pass of the sequence reader is
exactly the per-file extractions concatenated in file order (nothing
dropped, duplicated or reordered); and since the accumulator is not
cleared at file boundaries, a single batch can span two files: with two
one-example files and batch size 2, the single yielded batch holds one
example from each file. -/
theorem reader_concatenation_in_order :
    (∀ (files : List Archive) (b : Nat), 1 ≤ b →
      (∀ a ∈ files, a.lengths.sum = a.token_ids.length ∧
        a.labels.length = a.token_ids.length) →
      ((sequence_sample_reader files (b : Int)).1).flatten =
        (files.map (fun f => (sequenceExtract f).1)).flatten) ∧
    (sequence_sample_reader [⟨[10], [20], [1]⟩, ⟨[11], [21], [1]⟩] 2).1 =
      [[⟨[10], [0], [20]⟩, ⟨[11], [0], [21]⟩]] := by
  refine ⟨?_, by decide⟩
  intro files b hb hwf
  have hok : ∀ f ∈ files, (sequenceExtract f).2 = none := by
    intro f hf
    unfold sequenceExtract
    have h1 := (hwf f hf).1
    have h2 := (hwf f hf).2
    exact (extract_perToken_spec f.lengths f.token_ids f.labels 0 0
      (by omega) (by omega)).1
  unfold sequence_sample_reader
  rw [runFiles_ok (b : Int) sequenceExtract files hok ([], [])]
  rw [finishB_flatten, foldl_pushEx_flatten]
  simp

/-- C9, witness at a concrete well-formed one-file input. -/
theorem C9_witness :
    ((sequence_sample_reader [⟨[1], [2], [1]⟩] ((1 : Nat) : Int)).1).flatten =
      ([(⟨[1], [2], [1]⟩ : Archive)].map
        (fun f => (sequenceExtract f).1)).flatten :=
  reader_concatenation_in_order.1 [⟨[1], [2], [1]⟩] 1 (by decide) (by decide)

/-- C10, counterexample: the one-archive list `[⟨[],[],[]⟩]` is
non-empty and well-formed (`sum(lengths) = 0 = len(token_ids)`), yet
with batch size 0 the pretraining reader yields no batch at all — not
"exactly one final batch". -/
theorem C10_counterexample :
    (⟨[], [], []⟩ : Archive).lengths.sum =
      (⟨[], [], []⟩ : Archive).token_ids.length ∧
    ([⟨[], [], []⟩] : List Archive) ≠ [] ∧
    (pretrain_sample_reader idMask [⟨[], [], []⟩] 0).1 = [] := by
  refine ⟨rfl, by decide, rfl⟩

/-- C10 (amended): for batch size `B ≤ 0` and well-formed archives
holding at least one example, the size check `len(examples) ==
batch_size` can never fire, so the reader yields nothing mid-stream and
exactly one final batch holding all the examples; when the archives
hold zero examples nothing at all is yielded. -/
theorem nonpositive_batch_single_flush
    (mask : List Int → List Int × List Int)
    (hm : ∀ t, ((mask t).1).length = t.length ∧ ((mask t).2).length = t.length)
    (files : List Archive)
    (hwf : ∀ a ∈ files, a.lengths.sum = a.token_ids.length)
    (B : Int) (hB : B ≤ 0) (hN : 1 ≤ numExamples files) :
    pretrain_sample_reader mask files B =
      ([(files.map (fun f => (pretrainExtract mask f).1)).flatten],
       none) := by
  have hok : ∀ f ∈ files, (pretrainExtract mask f).2 = none :=
    fun f hf => (pretrainExtract_ok mask hm f (hwf f hf)).1
  have hne : (files.map (fun f => (pretrainExtract mask f).1)).flatten ≠ [] := by
    intro hc
    have hl := flatten_length_pretrain mask hm files hwf
    rw [hc] at hl
    simp only [List.length_nil] at hl
    omega
  unfold pretrain_sample_reader
  rw [runFiles_ok B (pretrainExtract mask) files hok ([], []),
    foldl_pushEx_nonpos B hB _ ([], [])]
  simp [finishB, hne]

/-- C10, witness for the amended theorem: batch size `-3`, one
one-example file, a single batch with that example. -/
theorem C10_witness :
    pretrain_sample_reader idMask [⟨[7], [], [1]⟩] (-3) =
      ([([(⟨[7], [], [1]⟩ : Archive)].map
        (fun f => (pretrainExtract idMask f).1)).flatten],
       none) :=
  nonpositive_batch_single_flush idMask (fun t => ⟨rfl, rfl⟩)
    [⟨[7], [], [1]⟩] (by decide) (-3) (by decide) (by decide)
